import Mathlib

/-!
Shallow embedding of the verification-context core of the repository
(`vir/src/context.rs`, `rust_verify/src/rust_to_vir_func.rs`, example
`rust_verify/example/adts.rs`), together with theorems settling the
spec claims about it.

Rust machine details that do not affect the claims are abstracted:
source spans are opaque tags (`Nat`), `Rc` sharing is by-value,
`HashMap` is an association list with overwrite-insert (the code only
observes key membership, lookup and entry count), and the `air` command
AST keeps exactly the constructors the code produces.
-/

namespace Verus

/-- Function / path identifiers (`vir::ast::Ident`, `Path`): strings. -/
abbrev Ident := String

abbrev Path := String

/-- Types are opaque to this core (`vir::ast::Typ`). -/
abbrev Typ := String

/-- Source locations (`air::ast::Span`) are opaque tags. -/
abbrev SpanId := Nat

/-- Model of `vir::ast::Mode`: Spec / Proof / Exec. -/
inductive Mode where
  | Spec
  | Proof
  | Exec
deriving DecidableEq, Repr

/-- Verification errors (`VirErr = Rc<Spanned<String>>`): a source
location plus a message. -/
structure VirErr where
  span : SpanId
  msg : String
deriving DecidableEq, Repr

/-- Model of `vir::ast_util::err_string`. -/
def err_string (span : SpanId) (msg : String) : Except VirErr Unit :=
  Except.error ⟨span, msg⟩

mutual
/-- Model of `vir::ast::Expr = Rc<Spanned<ExprX>>`; the span is stored in each
constructor.  The model keeps the node shapes this core inspects
(`Call`, `Fuel`, `Block`) plus representative leaf shapes. -/
inductive Expr where
  | call (span : SpanId) (x : Ident) (es : List Expr)
  | fuel (span : SpanId) (x : Ident) (n : Nat)
  | block (span : SpanId) (stmts : List Stmt) (tail : Option Expr)
  | var (span : SpanId) (x : Ident)
  | lit (span : SpanId) (n : Int)
deriving Repr

/-- Model of `vir::ast::Stmt = Rc<Spanned<StmtX>>`: an expression statement or a
let-binding; the statement keeps its own span. -/
inductive Stmt where
  | expr (span : SpanId) (e : Expr)
  | decl (span : SpanId) (x : Ident) (init : Expr)
deriving Repr
end

/-- Span of an expression (the `Spanned<ExprX>` wrapper's span). -/
def Expr.span : Expr → SpanId
  | .call s _ _ => s
  | .fuel s _ _ => s
  | .block s _ _ => s
  | .var s _ => s
  | .lit s _ => s

/-- Span of a statement (the `Spanned<StmtX>` wrapper's span). -/
def Stmt.span : Stmt → SpanId
  | .expr s _ => s
  | .decl s _ _ => s

/-- The expression carried by a statement (the sub-expression a
statement visitor recurses into). -/
def Stmt.innerExpr : Stmt → Expr
  | .expr _ e => e
  | .decl _ _ init => init

/-- Model of `vir::ast::ParamX`: parameter name and type. -/
structure Param where
  name : Ident
  typ : Typ
deriving DecidableEq, Repr

/-- Model of `vir::ast::FunctionX`. -/
structure FunctionX where
  name : Ident
  mode : Mode
  fuel : Nat
  params : List Param
  ret : Option Typ
  require : List Expr
  hidden : List Ident
  body : Option Expr
deriving Repr

/-- Model of `vir::ast::Function = Rc<Spanned<FunctionX>>`. -/
structure Function where
  span : SpanId
  x : FunctionX
deriving Repr

/-- Variants of a datatype: variant name, then field name/type pairs. -/
abbrev Variants := List (Ident × List (Ident × Typ))

/-- Model of `vir::ast::DatatypeX`. -/
structure Datatype where
  path : Path
  variants : Variants
deriving Repr

/-- Model of `vir::ast::KrateX`: ordered functions plus datatypes. -/
structure Krate where
  functions : List Function
  datatypes : List Datatype
deriving Repr

/-- Association-list model of `HashMap` insert: overwrite an existing
key, otherwise append.  The code observes only key membership, lookup
and entry count, which this preserves. -/
def mapInsert {β : Type} (m : List (Ident × β)) (k : Ident) (v : β) :
    List (Ident × β) :=
  match m with
  | [] => [(k, v)]
  | (k', v') :: rest =>
      if k' = k then (k, v) :: rest else (k', v') :: mapInsert rest k v

/-- Model of `HashMap::contains_key`. -/
def containsKey {β : Type} (m : List (Ident × β)) (k : Ident) : Bool :=
  m.any (fun p => p.1 = k)

/-- Model of `vir::context::Ctx`: datatype registry, ordered function
table, name→function map, and the trigger diagnostics log. -/
structure Ctx where
  datatypes : List (Path × Variants)
  functions : List Function
  func_map : List (Ident × Function)
  chosen_triggers : List (SpanId × List (List String))
deriving Repr

/-- The ordering-error message of `Ctx::check_defined_earlier`. -/
def recursionMsg (x : Ident) : String :=
  "because support for recursion isn't yet implemented, " ++ x ++
    " must be defined before it is called"

/-- Model of `Ctx::check_defined_earlier`: at a single node, a `Call` or `Fuel`
target must already be a key of `func_map`. -/
def check_defined_earlier (func_map : List (Ident × Function)) (e : Expr) :
    Except VirErr Unit :=
  match e with
  | .call span x _ | .fuel span x _ =>
      if containsKey func_map x then Except.ok () else
        err_string span (recursionMsg x)
  | _ => Except.ok ()

mutual
/-- Modelled from the spec: `vir::ast_visitor::map_expr_visitor` is not
under `src/`; per §4.2 it performs a full sub-expression traversal
("full tree traversal, not just the top level"), applying the check at
every node and failing fast on the first error. -/
def visit_expr (m : List (Ident × Function)) (e : Expr) :
    Except VirErr Unit := do
  check_defined_earlier m e
  match e with
  | .call _ _ es => visit_exprs m es
  | .block _ stmts tail => do
      visit_stmts m stmts
      visit_opt m tail
  | _ => Except.ok ()

def visit_exprs (m : List (Ident × Function)) (es : List Expr) :
    Except VirErr Unit :=
  match es with
  | [] => Except.ok ()
  | e :: rest => do
      visit_expr m e
      visit_exprs m rest

def visit_stmt (m : List (Ident × Function)) (s : Stmt) :
    Except VirErr Unit :=
  match s with
  | .expr _ e => visit_expr m e
  | .decl _ _ init => visit_expr m init

def visit_stmts (m : List (Ident × Function)) (ss : List Stmt) :
    Except VirErr Unit :=
  match ss with
  | [] => Except.ok ()
  | s :: rest => do
      visit_stmt m s
      visit_stmts m rest

def visit_opt (m : List (Ident × Function)) (o : Option Expr) :
    Except VirErr Unit :=
  match o with
  | none => Except.ok ()
  | some e => visit_expr m e
end

/-- Model of `Ctx::check_no_recursion`: visit the whole body, if present. -/
def check_no_recursion (func_map : List (Ident × Function))
    (function : Function) : Except VirErr Unit :=
  match function.x.body with
  | some body => visit_expr func_map body
  | none => Except.ok ()

/-- The per-function loop of `Ctx::new`: check each function against the
map of strictly earlier functions, then append/insert it. -/
def new_loop (fs : List Function) (functions : List Function)
    (func_map : List (Ident × Function)) :
    Except VirErr (List Function × List (Ident × Function)) :=
  match fs with
  | [] => Except.ok (functions, func_map)
  | f :: rest => do
      check_no_recursion func_map f
      new_loop rest (functions ++ [f]) (mapInsert func_map f.x.name f)

/-- Model of `Ctx::new`. -/
def Ctx.new (krate : Krate) : Except VirErr Ctx := do
  let datatypes :=
    krate.datatypes.foldl (fun m d => mapInsert m d.path d.variants) []
  let (functions, func_map) ← new_loop krate.functions [] []
  Except.ok { datatypes, functions, func_map, chosen_triggers := [] }

/-! ### Fuel / opacity encoder (`Ctx::fuel`) -/

/-- Model of `air::ast::Expr`, restricted to the shapes this core produces: an
identifier variable and the `Multi(Distinct, _)` expression. -/
inductive AirExpr where
  | var (x : Ident)
  | distinct (es : List AirExpr)

/-- Model of `air::ast::DeclX`, restricted to the shapes this core produces:
global constant declarations and global axioms. -/
inductive Decl where
  | const (id : Ident) (typ : Typ)
  | ax (e : AirExpr)

/-- Model of `air::ast::CommandX`: only `Global` is produced here. -/
inductive Command where
  | global (d : Decl)

/-- Model of `vir::def::FUEL_ID` (the dedicated identity sort), used via
`str_typ`. -/
def FUEL_ID : Typ := "FuelId"

/-- Modelled from the spec: `vir::def::prefix_fuel_id` is not under
`src/`; per §4.3 it is "a deterministic name derived from the
function's identifier". -/
def fuel_id_of (name : Ident) : Ident := "fuel%" ++ name

/-- The per-function loop of `Ctx::fuel`: push one identifier and one
constant declaration for each Spec-mode function with a body. -/
def fuel_loop (fs : List Function) (ids : List AirExpr)
    (commands : List Command) : List AirExpr × List Command :=
  match fs with
  | [] => (ids, commands)
  | f :: rest =>
      match f.x.mode, f.x.body with
      | .Spec, some _ =>
          let id := fuel_id_of f.x.name
          fuel_loop rest (ids ++ [AirExpr.var id])
            (commands ++ [Command.global (Decl.const id FUEL_ID)])
      | _, _ => fuel_loop rest ids commands

/-- Model of `Ctx::fuel`: the constant declarations followed by one global
distinctness axiom over all the identifiers. -/
def Ctx.fuel (ctx : Ctx) : List Command :=
  let (ids, commands) := fuel_loop ctx.functions [] []
  commands ++ [Command.global (Decl.ax (AirExpr.distinct ids))]

/-! ### Trigger diagnostics log -/

/-- Model of `Ctx::get_chosen_triggers`: a `borrow().clone()` — a copy of
the log and leaves the context untouched.  The `RefCell` read is made
explicit by returning the (unchanged) context alongside the copy. -/
def Ctx.get_chosen_triggers (ctx : Ctx) :
    List (SpanId × List (List String)) × Ctx :=
  (ctx.chosen_triggers, ctx)

/-- Modelled from the spec: the append accessor of §4.4 (invoked by the
out-of-scope expression encoder) is not under `src/`; it records one
`(source location, trigger term groups)` entry at the end of the log. -/
def Ctx.append_chosen_trigger (ctx : Ctx)
    (entry : SpanId × List (List String)) : Ctx :=
  { ctx with chosen_triggers := ctx.chosen_triggers ++ [entry] }

/-! ### Directive extractor (`read_header_block` / `read_header`) -/

/-- Model of `rust_to_vir_func::Header`. -/
structure Header where
  hidden : List Ident
  require : List Expr
deriving Repr

/-- The duplicate-`requires` message of `read_header_block`. -/
def dupRequiresMsg : String :=
  "only one call to requires allowed (use requires([e1, ..., en]) for multiple expressions"

/-- The scan loop of `read_header_block`: walk the statements from the
start; a `requires` call records the precondition list (a second one is
an error at that statement's span), a zero-valued `Fuel` marker appends
to `hidden`, anything else stops the scan.  The Rust code counts the
consumed statements and slices them off; the model returns the residual
list directly. -/
def read_header_go (stmts : List Stmt) (hidden : List Ident)
    (require : Option (List Expr)) : Except VirErr (Header × List Stmt) :=
  match stmts with
  | [] => Except.ok (⟨hidden, require.getD []⟩, [])
  | s :: rest =>
      match s with
      | .expr sp e =>
          match e with
          | .call _ x es =>
              if x = "requires" then
                match require with
                | some _ => Except.error ⟨sp, dupRequiresMsg⟩
                | none => read_header_go rest hidden (some es)
              else Except.ok (⟨hidden, require.getD []⟩, s :: rest)
          | .fuel _ x n =>
              if n = 0 then read_header_go rest (hidden ++ [x]) require
              else Except.ok (⟨hidden, require.getD []⟩, s :: rest)
          | _ => Except.ok (⟨hidden, require.getD []⟩, s :: rest)
      | .decl _ _ _ => Except.ok (⟨hidden, require.getD []⟩, s :: rest)

/-- Model of `read_header_block`: scan from an empty header state; the returned
list is the residual block (`block[n..]`). -/
def read_header_block (block : List Stmt) :
    Except VirErr (Header × List Stmt) :=
  read_header_go block [] none

/-- Model of `read_header`: on a block body, scan its statements and rebuild the
block from the residual; on any other body shape, scan an empty block
and leave the body unchanged. -/
def read_header (body : Expr) : Except VirErr (Header × Expr) :=
  match body with
  | .block sp stmts tail => do
      let (header, rest) ← read_header_block stmts
      Except.ok (header, .block sp rest tail)
  | e => do
      let (header, _) ← read_header_block []
      Except.ok (header, e)

/-! ### Front-end function translation (`rust_to_vir_func.rs`) -/

/-- Modelled from the spec: the `unsupported!` macro is declared in a
file not under `src/`; per §6/§7 the rejection it performs here "is
surfaced to the caller as a translation error" and "returned as
explicit result values carrying a source location and message". -/
def unsupportedErr (span : SpanId) (msg : String) : VirErr :=
  ⟨span, "unsupported: " ++ msg⟩

/-- Model of `check_item_fn`, after the out-of-scope rustc translation steps:
the signature has been reduced to its span, name, mode, fuel, declared
return type and parameters, and `body_to_vir` has already produced the
VIR body.  Performs the mode/return-type compatibility check, header
extraction, the Spec-requires rejection, then pushes the assembled
`Function` onto the krate. -/
def check_item_fn (vir : Krate) (sigSpan : SpanId) (name : Ident)
    (mode : Mode) (fuelv : Nat) (ret : Option Typ) (params : List Param)
    (body : Expr) : Except VirErr Krate := do
  match mode, ret with
  | .Exec, none | .Proof, none => Except.ok ()
  | .Exec, some _ | .Proof, some _ =>
      Except.error (unsupportedErr sigSpan "non-spec function return values")
  | .Spec, _ => Except.ok ()
  let (header, vir_body) ← read_header body
  if mode = .Spec && header.require.length > 0 then
    Except.error ⟨sigSpan, "spec functions cannot have requires/ensures"⟩
  else
    let func : FunctionX :=
      { name, mode, fuel := fuelv, params, ret,
        require := header.require, hidden := header.hidden,
        body := some vir_body }
    Except.ok { vir with functions := vir.functions ++ [⟨sigSpan, func⟩] }

/-- Model of `check_foreign_item_fn`, after the out-of-scope rustc translation
steps: assembles a declared-only `Function` with empty `require`,
empty `hidden` and no body, and pushes it onto the krate. -/
def check_foreign_item_fn (vir : Krate) (span : SpanId) (name : Ident)
    (mode : Mode) (fuelv : Nat) (ret : Option Typ) (params : List Param) :
    Except VirErr Krate :=
  let func : FunctionX :=
    { name, fuel := fuelv, mode, params, ret,
      require := [], hidden := [], body := none }
  Except.ok { vir with functions := vir.functions ++ [⟨span, func⟩] }

/-! ### Record construction (`example/adts.rs`, datatype encoding) -/

/-- Field values of the example datatypes (`Car` holds a `bool` and an
`int`). -/
inductive Value where
  | b (x : Bool)
  | i (x : Int)
deriving DecidableEq, Repr

/-- Modelled from the spec: the expression-level datatype encoding is
not under `src/`; per §8.5 a record value is determined by its
field-name→value binding, independent of the source order of the
initializers.  Construction from an initializer list binds each named
field, later initializers never overriding an earlier binding of the
same name (field names in one initializer list are unique). -/
def mkRecord (inits : List (Ident × Value)) : Ident → Option Value :=
  fun f => (inits.find? (fun p => p.1 = f)).map Prod.snd

/-- Modelled from the spec: field read-back on a record value is lookup
of the named field's bound value. -/
def readField (r : Ident → Option Value) (f : Ident) : Option Value :=
  r f

/-! ### Spec-side predicates for the ordering discipline -/

mutual
/-- Spec-side (§4.2): every `Call`/`Fuel` target anywhere in the
expression is one of the `earlier` names. -/
def exprRefsOK (earlier : List Ident) (e : Expr) : Bool :=
  match e with
  | .call _ x es => decide (x ∈ earlier) && exprsRefsOK earlier es
  | .fuel _ x _ => decide (x ∈ earlier)
  | .block _ stmts tail => stmtsRefsOK earlier stmts && optRefsOK earlier tail
  | .var _ _ => true
  | .lit _ _ => true

def exprsRefsOK (earlier : List Ident) (es : List Expr) : Bool :=
  match es with
  | [] => true
  | e :: rest => exprRefsOK earlier e && exprsRefsOK earlier rest

def stmtRefsOK (earlier : List Ident) (s : Stmt) : Bool :=
  match s with
  | .expr _ e => exprRefsOK earlier e
  | .decl _ _ init => exprRefsOK earlier init

def stmtsRefsOK (earlier : List Ident) (ss : List Stmt) : Bool :=
  match ss with
  | [] => true
  | s :: rest => stmtRefsOK earlier s && stmtsRefsOK earlier rest

def optRefsOK (earlier : List Ident) (o : Option Expr) : Bool :=
  match o with
  | none => true
  | some e => exprRefsOK earlier e
end

/-- Spec-side (§4.2): a function passes when it has no body or its body
only references `earlier` names. -/
def funcRefsOK (earlier : List Ident) (f : Function) : Bool :=
  match f.x.body with
  | some body => exprRefsOK earlier body
  | none => true

/-- Spec-side (§4.2): each function only references names declared
before it, starting from the accumulated `earlier` names. -/
def orderingOKFrom (earlier : List Ident) (fs : List Function) : Bool :=
  match fs with
  | [] => true
  | f :: rest => funcRefsOK earlier f && orderingOKFrom (earlier ++ [f.x.name]) rest

/-- Spec-side (§4.2): every call/fuel-reference target in every
function's body names a function declared strictly earlier in the
krate's sequence. -/
def orderingOK (krate : Krate) : Bool :=
  orderingOKFrom [] krate.functions

/-- A `Call` or `Fuel` node referencing `x`, located at span `s`,
occurs somewhere in the expression (full sub-expression traversal).
Used to state what the ordering error reports and what a success run
guarantees. -/
inductive RefAt : Expr → SpanId → Ident → Prop where
  | callHere {s x es} : RefAt (.call s x es) s x
  | fuelHere {s x n} : RefAt (.fuel s x n) s x
  | callArg {s0 x0 es e s x} (he : e ∈ es) (h : RefAt e s x) :
      RefAt (.call s0 x0 es) s x
  | blockStmt {s0 stmts tail st s x} (hs : st ∈ stmts)
      (h : RefAt st.innerExpr s x) : RefAt (.block s0 stmts tail) s x
  | blockTail {s0 stmts e s x} (h : RefAt e s x) :
      RefAt (.block s0 stmts (some e)) s x

/-- The function names of a sequence, in order. -/
def namesOf (fs : List Function) : List Ident :=
  fs.map (fun f => f.x.name)

/-- Spec-side (§4.3): the functions that receive a fuel identity — mode
`Spec` with a present body, in order. -/
def fuelFuncs (fs : List Function) : List Function :=
  fs.filter (fun f => decide (f.x.mode = .Spec) && f.x.body.isSome)

/-- A hide directive: an expression statement whose expression is a
zero-valued `Fuel` marker. -/
def isHideStmt : Stmt → Bool
  | .expr _ (.fuel _ _ n) => n = 0
  | _ => false

/-- The function identifier a hide directive targets. -/
def hideTargets (ss : List Stmt) : List Ident :=
  ss.filterMap (fun s =>
    match s with
    | .expr _ (.fuel _ x 0) => some x
    | _ => none)

/-- A requires directive: an expression statement whose expression is a
call to the distinguished `requires` identifier. -/
def isRequiresStmt : Stmt → Bool
  | .expr _ (.call _ x _) => x = "requires"
  | _ => false

/-- The expression sequence carried by a requires directive. -/
def reqArgs : Stmt → List Expr
  | .expr _ (.call _ _ es) => es
  | _ => []

/-- A directive-shaped statement: a hide or a requires directive. -/
def isDirective (s : Stmt) : Bool := isHideStmt s || isRequiresStmt s

/-! ### Concrete fixtures (used to instantiate the theorems) -/

/-- A declared-only function `f` (no body). -/
def exF : Function :=
  ⟨1, { name := "f", mode := .Spec, fuel := 1, params := [], ret := some "int",
        require := [], hidden := [], body := none }⟩

/-- A function `g` whose body calls `f` (call site at span 12). -/
def exG : Function :=
  ⟨2, { name := "g", mode := .Spec, fuel := 1, params := [], ret := some "int",
        require := [], hidden := [], body := some (.call 12 "f" []) }⟩

/-- Krate with `f` before `g`: the ordering discipline holds. -/
def exKrateGood : Krate := ⟨[exF, exG], []⟩

/-- Only `g`, calling the undeclared `f`: the ordering discipline fails. -/
def exKrateBad : Krate := ⟨[exG], []⟩

/-- A `requires` directive statement carrying one expression. -/
def exReq : Stmt := .expr 21 (.call 22 "requires" [.var 23 "a"])

/-- A second `requires` directive statement. -/
def exReq2 : Stmt := .expr 24 (.call 25 "requires" [.var 26 "b"])

/-- A hide directive targeting `h1`. -/
def exHide1 : Stmt := .expr 27 (.fuel 28 "h1" 0)

/-- A hide directive targeting `h2`. -/
def exHide2 : Stmt := .expr 29 (.fuel 30 "h2" 0)

/-- A non-directive statement. -/
def exOther : Stmt := .expr 31 (.var 32 "z")

/-! ## Helper lemmas -/

theorem containsKey_iff {β : Type} (m : List (Ident × β)) (k : Ident) :
    containsKey m k = true ↔ k ∈ m.map Prod.fst := by
  simp only [containsKey, List.any_eq_true, decide_eq_true_eq, List.mem_map]

theorem containsKey_cons {β : Type} (a : Ident) (b : β)
    (rest : List (Ident × β)) (k : Ident) :
    containsKey ((a, b) :: rest) k = true ↔ a = k ∨ containsKey rest k = true := by
  simp [containsKey]

theorem containsKey_mapInsert {β : Type} (m : List (Ident × β))
    (k k' : Ident) (v : β) :
    containsKey (mapInsert m k v) k' = true ↔ k = k' ∨ containsKey m k' = true := by
  induction m with
  | nil => simp [mapInsert, containsKey]
  | cons p rest ih =>
    obtain ⟨a, b⟩ := p
    by_cases ha : a = k
    · subst ha
      rw [show mapInsert ((a, b) :: rest) a v = (a, v) :: rest from by
        simp [mapInsert]]
      rw [containsKey_cons, containsKey_cons]
      tauto
    · rw [show mapInsert ((a, b) :: rest) k v = (a, b) :: mapInsert rest k v from by
        simp [mapInsert, ha]]
      rw [containsKey_cons, containsKey_cons, ih]
      tauto

theorem bind_eq_ok {β : Type} (a : Except VirErr Unit)
    (f : Unit → Except VirErr β) (b : β) :
    Except.bind a f = Except.ok b ↔ a = Except.ok () ∧ f () = Except.ok b := by
  cases a with
  | ok u => cases u; simp [Except.bind]
  | error e => simp [Except.bind]

theorem bind_eq_error {β : Type} (a : Except VirErr Unit)
    (f : Unit → Except VirErr β) (err : VirErr) :
    Except.bind a f = Except.error err ↔
      a = Except.error err ∨ (a = Except.ok () ∧ f () = Except.error err) := by
  cases a with
  | ok u => cases u; simp [Except.bind]
  | error e => simp [Except.bind]

mutual

theorem visit_expr_spec (m : List (Ident × Function)) (earlier : List Ident)
    (h : ∀ x, containsKey m x = true ↔ x ∈ earlier) (e : Expr) :
    (visit_expr m e = Except.ok () ↔ exprRefsOK earlier e = true) ∧
    (∀ err, visit_expr m e = Except.error err →
      ∃ x, err.msg = recursionMsg x ∧ RefAt e err.span x ∧ x ∉ earlier) := by
  cases e with
  | call s x es =>
    have ihs := visit_exprs_spec m earlier h es
    by_cases hc : containsKey m x = true
    · have hx : x ∈ earlier := (h x).mp hc
      have hv : visit_expr m (.call s x es) = visit_exprs m es := by
        simp [visit_expr, check_defined_earlier, hc, Bind.bind, Except.bind]
      constructor
      · rw [hv]
        simpa [exprRefsOK, hx] using ihs.1
      · intro err herr
        rw [hv] at herr
        obtain ⟨e', he', x', hmsg, href, hnx⟩ := ihs.2 err herr
        exact ⟨x', hmsg, RefAt.callArg he' href, hnx⟩
    · have hx : x ∉ earlier := fun hm => hc ((h x).mpr hm)
      have hv : visit_expr m (.call s x es) = Except.error ⟨s, recursionMsg x⟩ := by
        simp [visit_expr, check_defined_earlier, hc, err_string, Bind.bind, Except.bind]
      constructor
      · rw [hv]
        simp [exprRefsOK, hx]
      · intro err herr
        rw [hv] at herr
        injection herr with h1
        subst h1
        exact ⟨x, rfl, RefAt.callHere, hx⟩
  | fuel s x n =>
    by_cases hc : containsKey m x = true
    · have hx : x ∈ earlier := (h x).mp hc
      have hv : visit_expr m (.fuel s x n) = Except.ok () := by
        simp [visit_expr, check_defined_earlier, hc, Bind.bind, Except.bind]
      constructor
      · rw [hv]; simp [exprRefsOK, hx]
      · intro err herr
        rw [hv] at herr
        exact absurd herr (by simp)
    · have hx : x ∉ earlier := fun hm => hc ((h x).mpr hm)
      have hv : visit_expr m (.fuel s x n) = Except.error ⟨s, recursionMsg x⟩ := by
        simp [visit_expr, check_defined_earlier, hc, err_string, Bind.bind, Except.bind]
      constructor
      · rw [hv]; simp [exprRefsOK, hx]
      · intro err herr
        rw [hv] at herr
        injection herr with h1
        subst h1
        exact ⟨x, rfl, RefAt.fuelHere, hx⟩
  | block s stmts tail =>
    have ihs := visit_stmts_spec m earlier h stmts
    have iho := visit_opt_spec m earlier h tail
    have hv : visit_expr m (.block s stmts tail) =
        Except.bind (visit_stmts m stmts) (fun _ => visit_opt m tail) := by
      simp [visit_expr, check_defined_earlier, Bind.bind, Except.bind]
    constructor
    · rw [hv, bind_eq_ok]
      rw [show exprRefsOK earlier (.block s stmts tail) =
        (stmtsRefsOK earlier stmts && optRefsOK earlier tail) from rfl]
      rw [Bool.and_eq_true]
      exact and_congr ihs.1 iho.1
    · intro err herr
      rw [hv, bind_eq_error] at herr
      rcases herr with herr | ⟨_, herr⟩
      · obtain ⟨st, hst, x, hmsg, href, hnx⟩ := ihs.2 err herr
        exact ⟨x, hmsg, RefAt.blockStmt hst href, hnx⟩
      · obtain ⟨e', he', x, hmsg, href, hnx⟩ := iho.2 err herr
        subst he'
        exact ⟨x, hmsg, RefAt.blockTail href, hnx⟩
  | var s x =>
    have hv : visit_expr m (.var s x) = Except.ok () := by
      simp [visit_expr, check_defined_earlier, Bind.bind, Except.bind]
    constructor
    · rw [hv]; simp [exprRefsOK]
    · intro err herr
      rw [hv] at herr
      exact absurd herr (by simp)
  | lit s n =>
    have hv : visit_expr m (.lit s n) = Except.ok () := by
      simp [visit_expr, check_defined_earlier, Bind.bind, Except.bind]
    constructor
    · rw [hv]; simp [exprRefsOK]
    · intro err herr
      rw [hv] at herr
      exact absurd herr (by simp)

theorem visit_exprs_spec (m : List (Ident × Function)) (earlier : List Ident)
    (h : ∀ x, containsKey m x = true ↔ x ∈ earlier) (es : List Expr) :
    (visit_exprs m es = Except.ok () ↔ exprsRefsOK earlier es = true) ∧
    (∀ err, visit_exprs m es = Except.error err →
      ∃ e ∈ es, ∃ x, err.msg = recursionMsg x ∧ RefAt e err.span x ∧ x ∉ earlier) := by
  cases es with
  | nil =>
    constructor
    · simp [visit_exprs, exprsRefsOK]
    · intro err herr
      simp [visit_exprs] at herr
  | cons e rest =>
    have ih1 := visit_expr_spec m earlier h e
    have ih2 := visit_exprs_spec m earlier h rest
    have hv : visit_exprs m (e :: rest) =
        Except.bind (visit_expr m e) (fun _ => visit_exprs m rest) := by
      simp [visit_exprs, Bind.bind]
    constructor
    · rw [hv, bind_eq_ok]
      rw [show exprsRefsOK earlier (e :: rest) =
        (exprRefsOK earlier e && exprsRefsOK earlier rest) from rfl]
      rw [Bool.and_eq_true]
      exact and_congr ih1.1 ih2.1
    · intro err herr
      rw [hv, bind_eq_error] at herr
      rcases herr with herr | ⟨_, herr⟩
      · obtain ⟨x, hmsg, href, hnx⟩ := ih1.2 err herr
        exact ⟨e, List.mem_cons_self e rest, x, hmsg, href, hnx⟩
      · obtain ⟨e', he', x, hmsg, href, hnx⟩ := ih2.2 err herr
        exact ⟨e', List.mem_cons_of_mem e he', x, hmsg, href, hnx⟩

theorem visit_stmt_spec (m : List (Ident × Function)) (earlier : List Ident)
    (h : ∀ x, containsKey m x = true ↔ x ∈ earlier) (st : Stmt) :
    (visit_stmt m st = Except.ok () ↔ stmtRefsOK earlier st = true) ∧
    (∀ err, visit_stmt m st = Except.error err →
      ∃ x, err.msg = recursionMsg x ∧ RefAt st.innerExpr err.span x ∧ x ∉ earlier) := by
  cases st with
  | expr sp e =>
    have ih := visit_expr_spec m earlier h e
    constructor
    · rw [show visit_stmt m (.expr sp e) = visit_expr m e from rfl]
      exact ih.1
    · intro err herr
      exact ih.2 err herr
  | decl sp y init =>
    have ih := visit_expr_spec m earlier h init
    constructor
    · rw [show visit_stmt m (.decl sp y init) = visit_expr m init from rfl]
      exact ih.1
    · intro err herr
      exact ih.2 err herr

theorem visit_stmts_spec (m : List (Ident × Function)) (earlier : List Ident)
    (h : ∀ x, containsKey m x = true ↔ x ∈ earlier) (ss : List Stmt) :
    (visit_stmts m ss = Except.ok () ↔ stmtsRefsOK earlier ss = true) ∧
    (∀ err, visit_stmts m ss = Except.error err →
      ∃ st ∈ ss, ∃ x, err.msg = recursionMsg x ∧ RefAt st.innerExpr err.span x ∧ x ∉ earlier) := by
  cases ss with
  | nil =>
    constructor
    · simp [visit_stmts, stmtsRefsOK]
    · intro err herr
      simp [visit_stmts] at herr
  | cons st rest =>
    have ih1 := visit_stmt_spec m earlier h st
    have ih2 := visit_stmts_spec m earlier h rest
    have hv : visit_stmts m (st :: rest) =
        Except.bind (visit_stmt m st) (fun _ => visit_stmts m rest) := by
      simp [visit_stmts, Bind.bind]
    constructor
    · rw [hv, bind_eq_ok]
      rw [show stmtsRefsOK earlier (st :: rest) =
        (stmtRefsOK earlier st && stmtsRefsOK earlier rest) from rfl]
      rw [Bool.and_eq_true]
      exact and_congr ih1.1 ih2.1
    · intro err herr
      rw [hv, bind_eq_error] at herr
      rcases herr with herr | ⟨_, herr⟩
      · obtain ⟨x, hmsg, href, hnx⟩ := ih1.2 err herr
        exact ⟨st, List.mem_cons_self st rest, x, hmsg, href, hnx⟩
      · obtain ⟨st', hst', x, hmsg, href, hnx⟩ := ih2.2 err herr
        exact ⟨st', List.mem_cons_of_mem st hst', x, hmsg, href, hnx⟩

theorem visit_opt_spec (m : List (Ident × Function)) (earlier : List Ident)
    (h : ∀ x, containsKey m x = true ↔ x ∈ earlier) (o : Option Expr) :
    (visit_opt m o = Except.ok () ↔ optRefsOK earlier o = true) ∧
    (∀ err, visit_opt m o = Except.error err →
      ∃ e, o = some e ∧ ∃ x, err.msg = recursionMsg x ∧ RefAt e err.span x ∧ x ∉ earlier) := by
  cases o with
  | none =>
    constructor
    · simp [visit_opt, optRefsOK]
    · intro err herr
      simp [visit_opt] at herr
  | some e =>
    have ih := visit_expr_spec m earlier h e
    constructor
    · rw [show visit_opt m (some e) = visit_expr m e from rfl]
      rw [show optRefsOK earlier (some e) = exprRefsOK earlier e from rfl]
      exact ih.1
    · intro err herr
      obtain ⟨x, hmsg, href, hnx⟩ := ih.2 err herr
      exact ⟨e, rfl, x, hmsg, href, hnx⟩

end

theorem check_no_recursion_spec (m : List (Ident × Function)) (earlier : List Ident)
    (h : ∀ x, containsKey m x = true ↔ x ∈ earlier) (f : Function) :
    (check_no_recursion m f = Except.ok () ↔ funcRefsOK earlier f = true) ∧
    (∀ err, check_no_recursion m f = Except.error err →
      ∃ body, f.x.body = some body ∧
        ∃ x, err.msg = recursionMsg x ∧ RefAt body err.span x ∧ x ∉ earlier) := by
  cases hb : f.x.body with
  | none =>
    constructor
    · simp [check_no_recursion, hb, funcRefsOK]
    · intro err herr
      simp [check_no_recursion, hb] at herr
  | some body =>
    have ih := visit_expr_spec m earlier h body
    constructor
    · rw [show check_no_recursion m f = visit_expr m body from by
        simp [check_no_recursion, hb]]
      rw [show funcRefsOK earlier f = exprRefsOK earlier body from by
        simp [funcRefsOK, hb]]
      exact ih.1
    · intro err herr
      rw [show check_no_recursion m f = visit_expr m body from by
        simp [check_no_recursion, hb]] at herr
      obtain ⟨x, hmsg, href, hnx⟩ := ih.2 err herr
      exact ⟨body, rfl, x, hmsg, href, hnx⟩

theorem inv_step (m : List (Ident × Function)) (earlier : List Ident)
    (h : ∀ x, containsKey m x = true ↔ x ∈ earlier) (k : Ident) (v : Function) :
    ∀ x, containsKey (mapInsert m k v) x = true ↔ x ∈ earlier ++ [k] := by
  intro x
  rw [containsKey_mapInsert, h x]
  simp [List.mem_append, or_comm, eq_comm]

theorem new_loop_spec (fs : List Function) :
    ∀ (functions : List Function) (m : List (Ident × Function)) (earlier : List Ident),
    (∀ x, containsKey m x = true ↔ x ∈ earlier) →
    ((new_loop fs functions m).isOk ↔ orderingOKFrom earlier fs = true) ∧
    (∀ err, new_loop fs functions m = Except.error err →
      ∃ i, ∃ hi : i < fs.length, ∃ body x,
        fs[i].x.body = some body ∧
        err.msg = recursionMsg x ∧ RefAt body err.span x ∧
        x ∉ earlier ++ namesOf (fs.take i)) := by
  induction fs with
  | nil =>
    intro functions m earlier h
    constructor
    · simp [new_loop, orderingOKFrom, Except.isOk, Except.toBool]
    · intro err herr
      simp [new_loop] at herr
  | cons f rest ih =>
    intro functions m earlier h
    have hcheck := check_no_recursion_spec m earlier h f
    have hv : new_loop (f :: rest) functions m =
        Except.bind (check_no_recursion m f)
          (fun _ => new_loop rest (functions ++ [f]) (mapInsert m f.x.name f)) := by
      simp [new_loop, Bind.bind]
    have ih' := ih (functions ++ [f]) (mapInsert m f.x.name f)
      (earlier ++ [f.x.name]) (inv_step m earlier h f.x.name f)
    constructor
    · rw [hv]
      cases hc : check_no_recursion m f with
      | ok u =>
        cases u
        have hfOK : funcRefsOK earlier f = true := hcheck.1.mp hc
        rw [show Except.bind (Except.ok ())
          (fun _ => new_loop rest (functions ++ [f]) (mapInsert m f.x.name f)) =
          new_loop rest (functions ++ [f]) (mapInsert m f.x.name f) from rfl]
        rw [show orderingOKFrom earlier (f :: rest) =
          (funcRefsOK earlier f && orderingOKFrom (earlier ++ [f.x.name]) rest) from rfl]
        rw [hfOK, Bool.true_and]
        exact ih'.1
      | error e0 =>
        have hfBad : funcRefsOK earlier f ≠ true := by
          intro hOK
          rw [← hcheck.1] at hOK
          rw [hOK] at hc
          cases hc
        rw [show Except.bind (Except.error e0)
          (fun _ => new_loop rest (functions ++ [f]) (mapInsert m f.x.name f)) =
          Except.error e0 from rfl]
        rw [show orderingOKFrom earlier (f :: rest) =
          (funcRefsOK earlier f && orderingOKFrom (earlier ++ [f.x.name]) rest) from rfl]
        simp [Except.isOk, Except.toBool, hfBad]
    · intro err herr
      rw [hv, bind_eq_error] at herr
      rcases herr with herr | ⟨_, herr⟩
      · obtain ⟨body, hb, x, hmsg, href, hnx⟩ := hcheck.2 err herr
        refine ⟨0, Nat.succ_pos _, body, x, ?_, hmsg, href, ?_⟩
        · simpa using hb
        · simpa [namesOf] using hnx
      · obtain ⟨i, hi, body, x, hb, hmsg, href, hnx⟩ := ih'.2 err herr
        refine ⟨i + 1, Nat.succ_lt_succ hi, body, x, ?_, hmsg, href, ?_⟩
        · simpa using hb
        · simpa [namesOf, List.append_assoc] using hnx

theorem mapInsert_fresh {β : Type} (m : List (Ident × β)) (k : Ident) (v : β)
    (h : containsKey m k = false) : mapInsert m k v = m ++ [(k, v)] := by
  induction m with
  | nil => simp [mapInsert]
  | cons p rest ih =>
    obtain ⟨a, b⟩ := p
    simp only [containsKey, List.any_cons, Bool.or_eq_false_iff,
      decide_eq_false_iff_not] at h
    rw [show mapInsert ((a, b) :: rest) k v = (a, b) :: mapInsert rest k v from by
      simp [mapInsert, h.1]]
    rw [ih (by simpa [containsKey] using h.2)]
    simp

theorem new_loop_ok_fst (fs : List Function) :
    ∀ (functions : List Function) (m : List (Ident × Function))
      (out : List Function × List (Ident × Function)),
      new_loop fs functions m = Except.ok out → out.1 = functions ++ fs := by
  induction fs with
  | nil =>
    intro functions m out h
    simp only [new_loop, Except.ok.injEq] at h
    rw [← h]
    simp
  | cons f rest ih =>
    intro functions m out h
    rw [show new_loop (f :: rest) functions m =
      Except.bind (check_no_recursion m f)
        (fun _ => new_loop rest (functions ++ [f]) (mapInsert m f.x.name f)) from by
      simp [new_loop, Bind.bind], bind_eq_ok] at h
    have := ih _ _ _ h.2
    simpa [List.append_assoc] using this

theorem new_loop_ok_map (fs : List Function) :
    ∀ (m : List (Ident × Function)) (functions : List Function)
      (out : List Function × List (Ident × Function)),
      (namesOf fs).Nodup →
      (∀ n ∈ namesOf fs, containsKey m n = false) →
      new_loop fs functions m = Except.ok out →
      out.2.map Prod.fst = m.map Prod.fst ++ namesOf fs := by
  induction fs with
  | nil =>
    intro m functions out _ _ h
    simp only [new_loop, Except.ok.injEq] at h
    rw [← h]
    simp [namesOf]
  | cons f rest ih =>
    intro m functions out hnd hdisj h
    rw [show new_loop (f :: rest) functions m =
      Except.bind (check_no_recursion m f)
        (fun _ => new_loop rest (functions ++ [f]) (mapInsert m f.x.name f)) from by
      simp [new_loop, Bind.bind], bind_eq_ok] at h
    have hfresh : containsKey m f.x.name = false :=
      hdisj f.x.name (by simp [namesOf])
    rw [mapInsert_fresh m f.x.name f hfresh] at h
    have hnd0 : f.x.name ∉ namesOf rest ∧ (namesOf rest).Nodup := by
      simpa [namesOf, List.nodup_cons] using hnd
    have hdisj' : ∀ n ∈ namesOf rest, containsKey (m ++ [(f.x.name, f)]) n = false := by
      intro n hn
      have hne : ¬ f.x.name = n := fun e => hnd0.1 (e ▸ hn)
      have h0 : containsKey m n = false := hdisj n (by
        rw [show namesOf (f :: rest) = f.x.name :: namesOf rest from by simp [namesOf]]
        exact List.mem_cons_of_mem _ hn)
      simp only [containsKey, List.any_append, List.any_cons, List.any_nil,
        Bool.or_eq_false_iff, decide_eq_false_iff_not]
      refine ⟨by simpa [containsKey] using h0, hne, trivial⟩
    have := ih _ _ _ hnd0.2 hdisj' h.2
    simpa [namesOf, List.map_append] using this

theorem orderingOKFrom_get (fs : List Function) :
    ∀ earlier, orderingOKFrom earlier fs = true →
    ∀ i, ∀ hi : i < fs.length,
      funcRefsOK (earlier ++ namesOf (fs.take i)) fs[i] = true := by
  induction fs with
  | nil =>
    intro earlier _ i hi
    exact absurd hi (by simp)
  | cons f rest ih =>
    intro earlier hok i hi
    rw [show orderingOKFrom earlier (f :: rest) =
      (funcRefsOK earlier f && orderingOKFrom (earlier ++ [f.x.name]) rest) from rfl,
      Bool.and_eq_true] at hok
    cases i with
    | zero => simpa [namesOf] using hok.1
    | succ j =>
      have := ih (earlier ++ [f.x.name]) hok.2 j (Nat.lt_of_succ_lt_succ hi)
      simpa [namesOf, List.append_assoc] using this

theorem exprsRefsOK_mem (earlier : List Ident) :
    ∀ es, exprsRefsOK earlier es = true → ∀ e ∈ es, exprRefsOK earlier e = true := by
  intro es
  induction es with
  | nil =>
    intro _ e he
    cases he
  | cons a rest ih =>
    intro hok e he
    rw [show exprsRefsOK earlier (a :: rest) =
      (exprRefsOK earlier a && exprsRefsOK earlier rest) from rfl,
      Bool.and_eq_true] at hok
    rcases List.mem_cons.mp he with rfl | hm
    · exact hok.1
    · exact ih hok.2 e hm

theorem stmtsRefsOK_mem (earlier : List Ident) :
    ∀ ss, stmtsRefsOK earlier ss = true → ∀ st ∈ ss, stmtRefsOK earlier st = true := by
  intro ss
  induction ss with
  | nil =>
    intro _ st hs
    cases hs
  | cons a rest ih =>
    intro hok st hs
    rw [show stmtsRefsOK earlier (a :: rest) =
      (stmtRefsOK earlier a && stmtsRefsOK earlier rest) from rfl,
      Bool.and_eq_true] at hok
    rcases List.mem_cons.mp hs with rfl | hm
    · exact hok.1
    · exact ih hok.2 st hm

theorem stmtRefsOK_innerExpr (earlier : List Ident) (st : Stmt) :
    stmtRefsOK earlier st = exprRefsOK earlier st.innerExpr := by
  cases st <;> rfl

theorem refAt_mem (earlier : List Ident) {e : Expr} {s : SpanId} {x : Ident}
    (href : RefAt e s x) : exprRefsOK earlier e = true → x ∈ earlier := by
  induction href with
  | callHere =>
    intro hok
    simp only [exprRefsOK, Bool.and_eq_true, decide_eq_true_eq] at hok
    exact hok.1
  | fuelHere =>
    intro hok
    simp only [exprRefsOK, decide_eq_true_eq] at hok
    exact hok
  | callArg he _ ih =>
    intro hok
    simp only [exprRefsOK, Bool.and_eq_true, decide_eq_true_eq] at hok
    exact ih (exprsRefsOK_mem earlier _ hok.2 _ he)
  | blockStmt hs _ ih =>
    intro hok
    simp only [exprRefsOK, Bool.and_eq_true] at hok
    have := stmtsRefsOK_mem earlier _ hok.1 _ hs
    rw [stmtRefsOK_innerExpr] at this
    exact ih this
  | blockTail _ ih =>
    intro hok
    simp only [exprRefsOK, Bool.and_eq_true] at hok
    exact ih hok.2

theorem ctx_new_isOk (krate : Krate) :
    (Ctx.new krate).isOk = (new_loop krate.functions [] []).isOk := by
  cases h : new_loop krate.functions [] [] with
  | ok p =>
    obtain ⟨fs, fm⟩ := p
    simp [Ctx.new, h, Bind.bind, Except.bind, Except.isOk, Except.toBool]
  | error e =>
    simp [Ctx.new, h, Bind.bind, Except.bind, Except.isOk, Except.toBool]

theorem ctx_new_error_iff (krate : Krate) (err : VirErr) :
    Ctx.new krate = Except.error err ↔
      new_loop krate.functions [] [] = Except.error err := by
  cases h : new_loop krate.functions [] [] with
  | ok p =>
    obtain ⟨fs, fm⟩ := p
    simp [Ctx.new, h, Bind.bind, Except.bind]
  | error e =>
    simp [Ctx.new, h, Bind.bind, Except.bind]

theorem ctx_new_ok (krate : Krate) (ctx : Ctx) (h : Ctx.new krate = Except.ok ctx) :
    new_loop krate.functions [] [] = Except.ok (ctx.functions, ctx.func_map) := by
  cases hl : new_loop krate.functions [] [] with
  | ok p =>
    obtain ⟨fs, fm⟩ := p
    simp only [Ctx.new, hl, Bind.bind, Except.bind, Except.ok.injEq] at h
    rw [← h]
  | error e =>
    simp [Ctx.new, hl, Bind.bind, Except.bind] at h

theorem new_loop_ok_contains (fs : List Function) :
    ∀ (functions : List Function) (m : List (Ident × Function))
      (out : List Function × List (Ident × Function)),
      new_loop fs functions m = Except.ok out →
      ∀ n, (containsKey m n = true ∨ n ∈ namesOf fs) →
        containsKey out.2 n = true := by
  induction fs with
  | nil =>
    intro functions m out h n hn
    simp only [new_loop, Except.ok.injEq] at h
    rw [← h]
    rcases hn with hn | hn
    · exact hn
    · simp [namesOf] at hn
  | cons f rest ih =>
    intro functions m out h n hn
    rw [show new_loop (f :: rest) functions m =
      Except.bind (check_no_recursion m f)
        (fun _ => new_loop rest (functions ++ [f]) (mapInsert m f.x.name f)) from by
      simp [new_loop, Bind.bind], bind_eq_ok] at h
    apply ih _ _ _ h.2 n
    rcases hn with hn | hn
    · exact Or.inl ((containsKey_mapInsert m f.x.name n f).mpr (Or.inr hn))
    · rw [show namesOf (f :: rest) = f.x.name :: namesOf rest from by
        simp [namesOf]] at hn
      rcases List.mem_cons.mp hn with rfl | hm
      · exact Or.inl ((containsKey_mapInsert _ _ _ _).mpr (Or.inl rfl))
      · exact Or.inr hm

theorem namesOf_take_index (fs : List Function) (i : Nat) (x : Ident)
    (hx : x ∈ namesOf (fs.take i)) :
    ∃ j, ∃ hj : j < fs.length, j < i ∧ fs[j].x.name = x := by
  simp only [namesOf, List.mem_map] at hx
  obtain ⟨f, hf, hname⟩ := hx
  obtain ⟨j, hj, hget⟩ := List.getElem_of_mem hf
  have hjlen : j < fs.length := lt_of_lt_of_le hj (by simp [List.length_take])
  have hji : j < i := lt_of_lt_of_le hj (by simp [List.length_take])
  refine ⟨j, hjlen, hji, ?_⟩
  rw [← hname, ← hget, List.getElem_take]

/-- C1: `Ctx::new(krate)` succeeds if and only if every `Call` and
`Fuel` expression anywhere in any function body (full sub-expression
traversal) references a function declared strictly earlier in the
krate's sequence, functions without a body passing trivially; and any
returned error carries the span of an offending `Call`/`Fuel`
expression and names its referenced identifier, which is not among the
strictly earlier names. -/
theorem ctx_new_ordering_claim (krate : Krate) :
    ((Ctx.new krate).isOk = true ↔ orderingOK krate = true) ∧
    (∀ err, Ctx.new krate = Except.error err →
      ∃ i, ∃ hi : i < krate.functions.length, ∃ body x,
        krate.functions[i].x.body = some body ∧
        err.msg = recursionMsg x ∧ RefAt body err.span x ∧
        x ∉ namesOf (krate.functions.take i)) := by
  have hbase : ∀ x : Ident,
      containsKey ([] : List (Ident × Function)) x = true ↔ x ∈ ([] : List Ident) := by
    simp [containsKey]
  have hspec := new_loop_spec krate.functions [] [] [] hbase
  constructor
  · rw [ctx_new_isOk]
    rw [show orderingOK krate = orderingOKFrom [] krate.functions from rfl]
    exact hspec.1
  · intro err herr
    rw [ctx_new_error_iff] at herr
    obtain ⟨i, hi, body, x, hb, hmsg, href, hnx⟩ := hspec.2 err herr
    refine ⟨i, hi, body, x, hb, hmsg, href, ?_⟩
    simpa using hnx

theorem ctx_new_ordering_claim_witness :
    ∃ i, ∃ hi : i < exKrateBad.functions.length, ∃ body x,
      exKrateBad.functions[i].x.body = some body ∧
      (VirErr.mk 12 (recursionMsg "f")).msg = recursionMsg x ∧
      RefAt body (VirErr.mk 12 (recursionMsg "f")).span x ∧
      x ∉ namesOf (exKrateBad.functions.take i) :=
  (ctx_new_ordering_claim exKrateBad).2 ⟨12, recursionMsg "f"⟩ (by
    simp [Ctx.new, new_loop, check_no_recursion, exKrateBad, exG, visit_expr,
      visit_exprs, check_defined_earlier, containsKey, err_string,
      Bind.bind, Except.bind])


/-- C4: when `Ctx::new` succeeds, `functions` is the krate's sequence
in order; given unique function names, `func_map` has exactly one entry
per function, keyed by name in order; and every `Call`/`Fuel` reference
in any function's body is a key of `func_map` and names a function at a
strictly smaller index. -/
theorem ctx_new_success_claim (krate : Krate) (ctx : Ctx)
    (hok : Ctx.new krate = Except.ok ctx) :
    ctx.functions = krate.functions ∧
    ((namesOf krate.functions).Nodup →
      ctx.func_map.map Prod.fst = namesOf krate.functions) ∧
    (∀ i, ∀ hi : i < krate.functions.length, ∀ body s x,
      krate.functions[i].x.body = some body → RefAt body s x →
      containsKey ctx.func_map x = true ∧
      ∃ j, ∃ hj : j < krate.functions.length, j < i ∧
        krate.functions[j].x.name = x) := by
  have hloop := ctx_new_ok krate ctx hok
  have hbase : ∀ x : Ident,
      containsKey ([] : List (Ident × Function)) x = true ↔ x ∈ ([] : List Ident) := by
    simp [containsKey]
  refine ⟨?_, ?_, ?_⟩
  · have := new_loop_ok_fst krate.functions [] [] _ hloop
    simpa using this
  · intro hnd
    have := new_loop_ok_map krate.functions [] [] _ hnd
      (fun n _ => by simp [containsKey]) hloop
    simpa using this
  · intro i hi body s x hb href
    have hspec := new_loop_spec krate.functions [] [] [] hbase
    have hOK : orderingOKFrom [] krate.functions = true := by
      apply hspec.1.mp
      rw [hloop]
      rfl
    have hfOK := orderingOKFrom_get krate.functions [] hOK i hi
    rw [show funcRefsOK ([] ++ namesOf (krate.functions.take i)) krate.functions[i] =
      exprRefsOK ([] ++ namesOf (krate.functions.take i)) body from by
      simp [funcRefsOK, hb]] at hfOK
    have hx : x ∈ [] ++ namesOf (krate.functions.take i) :=
      refAt_mem _ href hfOK
    rw [List.nil_append] at hx
    constructor
    · apply new_loop_ok_contains krate.functions [] [] _ hloop x
      right
      simp only [namesOf, List.mem_map] at hx ⊢
      obtain ⟨f, hf, hname⟩ := hx
      exact ⟨f, List.mem_of_mem_take hf, hname⟩
    · exact namesOf_take_index krate.functions i x hx

theorem ctx_new_success_claim_witness :
    ∃ ctx, Ctx.new exKrateGood = Except.ok ctx ∧
      ctx.functions = exKrateGood.functions ∧
      ctx.func_map.map Prod.fst = namesOf exKrateGood.functions ∧
      containsKey ctx.func_map "f" = true := by
  have hok : Ctx.new exKrateGood =
      Except.ok (⟨[], [exF, exG], [("f", exF), ("g", exG)], []⟩ : Ctx) := by
    simp [Ctx.new, new_loop, check_no_recursion, exKrateGood, exF, exG,
      visit_expr, visit_exprs, check_defined_earlier, containsKey,
      mapInsert, err_string, Bind.bind, Except.bind]
  have h := ctx_new_success_claim exKrateGood _ hok
  refine ⟨_, hok, h.1, h.2.1 (by simp [namesOf, exKrateGood, exF, exG]), ?_⟩
  have h3 := (h.2.2 1 (by simp [exKrateGood]) (.call 12 "f" []) 12 "f"
    (by simp [exKrateGood, exG]) RefAt.callHere).1
  exact h3

theorem fuel_loop_eq (fs : List Function) :
    ∀ ids commands,
      fuel_loop fs ids commands =
        (ids ++ (fuelFuncs fs).map (fun f => AirExpr.var (fuel_id_of f.x.name)),
         commands ++ (fuelFuncs fs).map
           (fun f => Command.global (Decl.const (fuel_id_of f.x.name) FUEL_ID))) := by
  induction fs with
  | nil =>
    intro ids commands
    simp [fuel_loop, fuelFuncs]
  | cons f rest ih =>
    intro ids commands
    cases hm : f.x.mode with
    | Spec =>
      cases hb : f.x.body with
      | none =>
        rw [show fuel_loop (f :: rest) ids commands = fuel_loop rest ids commands from by
          simp [fuel_loop, hm, hb]]
        rw [ih]
        simp [fuelFuncs, List.filter_cons, hm, hb]
      | some b =>
        rw [show fuel_loop (f :: rest) ids commands =
          fuel_loop rest (ids ++ [AirExpr.var (fuel_id_of f.x.name)])
            (commands ++ [Command.global (Decl.const (fuel_id_of f.x.name) FUEL_ID)]) from by
          simp [fuel_loop, hm, hb]]
        rw [ih]
        simp [fuelFuncs, List.filter_cons, hm, hb]
    | Proof =>
      rw [show fuel_loop (f :: rest) ids commands = fuel_loop rest ids commands from by
        cases hb : f.x.body <;> simp [fuel_loop, hm, hb]]
      rw [ih]
      simp [fuelFuncs, List.filter_cons, hm]
    | Exec =>
      rw [show fuel_loop (f :: rest) ids commands = fuel_loop rest ids commands from by
        cases hb : f.x.body <;> simp [fuel_loop, hm, hb]]
      rw [ih]
      simp [fuelFuncs, List.filter_cons, hm]

/-- C2: `fuel()` yields one global constant declaration per Spec-mode
function with a body, in context order, each named deterministically
from the function's identifier, followed by exactly one global
distinctness axiom as the final command — also when no function
qualifies. -/
theorem fuel_claim (ctx : Ctx) :
    ctx.fuel = (fuelFuncs ctx.functions).map
        (fun f => Command.global (Decl.const (fuel_id_of f.x.name) FUEL_ID)) ++
      [Command.global (Decl.ax (AirExpr.distinct ((fuelFuncs ctx.functions).map
        (fun f => AirExpr.var (fuel_id_of f.x.name)))))] ∧
    ctx.fuel.length = (fuelFuncs ctx.functions).length + 1 ∧
    ctx.fuel.getLast? = some (Command.global (Decl.ax (AirExpr.distinct
      ((fuelFuncs ctx.functions).map (fun f => AirExpr.var (fuel_id_of f.x.name)))))) := by
  have h := fuel_loop_eq ctx.functions [] []
  have hfuel : ctx.fuel = (fuelFuncs ctx.functions).map
      (fun f => Command.global (Decl.const (fuel_id_of f.x.name) FUEL_ID)) ++
      [Command.global (Decl.ax (AirExpr.distinct ((fuelFuncs ctx.functions).map
        (fun f => AirExpr.var (fuel_id_of f.x.name)))))] := by
    rw [Ctx.fuel, h]
    simp
  refine ⟨hfuel, ?_, ?_⟩
  · rw [hfuel]
    simp
  · rw [hfuel]
    simp

theorem go_nil (hidden : List Ident) (req : Option (List Expr)) :
    read_header_go [] hidden req = Except.ok (⟨hidden, req.getD []⟩, []) := by
  simp [read_header_go]

theorem go_hide (sp sp2 : SpanId) (x : Ident) (rest : List Stmt)
    (hidden : List Ident) (req : Option (List Expr)) :
    read_header_go (Stmt.expr sp (Expr.fuel sp2 x 0) :: rest) hidden req =
      read_header_go rest (hidden ++ [x]) req := by
  simp [read_header_go]

theorem go_req_none (sp sp2 : SpanId) (es : List Expr) (rest : List Stmt)
    (hidden : List Ident) :
    read_header_go (Stmt.expr sp (Expr.call sp2 "requires" es) :: rest) hidden none =
      read_header_go rest hidden (some es) := by
  simp [read_header_go]

theorem go_req_some (sp sp2 : SpanId) (es es0 : List Expr) (rest : List Stmt)
    (hidden : List Ident) :
    read_header_go (Stmt.expr sp (Expr.call sp2 "requires" es) :: rest) hidden (some es0) =
      Except.error ⟨sp, dupRequiresMsg⟩ := by
  simp [read_header_go]

theorem go_stop (s : Stmt) (rest : List Stmt) (hidden : List Ident)
    (req : Option (List Expr)) (hs : isDirective s = false) :
    read_header_go (s :: rest) hidden req =
      Except.ok (⟨hidden, req.getD []⟩, s :: rest) := by
  rw [isDirective, Bool.or_eq_false_iff] at hs
  cases s with
  | expr sp e =>
    cases e with
    | call sp2 x es =>
      have : ¬ x = "requires" := by
        simpa [isRequiresStmt] using hs.2
      simp [read_header_go, this]
    | fuel sp2 x n =>
      have : ¬ n = 0 := by
        simpa [isHideStmt] using hs.1
      simp [read_header_go, this]
    | block sp2 stmts tail => simp [read_header_go]
    | var sp2 x => simp [read_header_go]
    | lit sp2 n => simp [read_header_go]
  | decl sp y init => simp [read_header_go]

theorem isHideStmt_shape (s : Stmt) (h : isHideStmt s = true) :
    ∃ sp sp2 x, s = Stmt.expr sp (Expr.fuel sp2 x 0) := by
  cases s with
  | expr sp e =>
    cases e with
    | fuel sp2 x n =>
      have hn : n = 0 := by simpa [isHideStmt] using h
      exact ⟨sp, sp2, x, by rw [hn]⟩
    | call _ _ _ => simp [isHideStmt] at h
    | block _ _ _ => simp [isHideStmt] at h
    | var _ _ => simp [isHideStmt] at h
    | lit _ _ => simp [isHideStmt] at h
  | decl _ _ _ => simp [isHideStmt] at h

theorem isRequiresStmt_shape (s : Stmt) (h : isRequiresStmt s = true) :
    ∃ sp sp2 es, s = Stmt.expr sp (Expr.call sp2 "requires" es) := by
  cases s with
  | expr sp e =>
    cases e with
    | call sp2 x es =>
      have hx : x = "requires" := by simpa [isRequiresStmt] using h
      exact ⟨sp, sp2, es, by rw [hx]⟩
    | fuel _ _ _ => simp [isRequiresStmt] at h
    | block _ _ _ => simp [isRequiresStmt] at h
    | var _ _ => simp [isRequiresStmt] at h
    | lit _ _ => simp [isRequiresStmt] at h
  | decl _ _ _ => simp [isRequiresStmt] at h

theorem go_hides (hs : List Stmt) :
    ∀ (rest : List Stmt) (hidden : List Ident) (req : Option (List Expr)),
      (∀ s ∈ hs, isHideStmt s = true) →
      read_header_go (hs ++ rest) hidden req =
        read_header_go rest (hidden ++ hideTargets hs) req := by
  induction hs with
  | nil =>
    intro rest hidden req _
    simp [hideTargets]
  | cons s hs ih =>
    intro rest hidden req hall
    obtain ⟨sp, sp2, x, rfl⟩ := isHideStmt_shape s (hall s (List.mem_cons_self s hs))
    rw [List.cons_append, go_hide,
      ih rest (hidden ++ [x]) req (fun t ht => hall t (List.mem_cons_of_mem _ ht))]
    congr 1
    simp [hideTargets, List.append_assoc]


theorem go_directives (p : List Stmt) :
    ∀ (hidden : List Ident) (req : Option (List Expr)) (rest : List Stmt),
      (∀ t ∈ p, isDirective t = true) →
      (p.filter isRequiresStmt).length + (if req.isSome then 1 else 0) ≤ 1 →
      ∃ req', read_header_go (p ++ rest) hidden req =
        read_header_go rest (hidden ++ hideTargets p) req' := by
  induction p with
  | nil =>
    intro hidden req rest _ _
    exact ⟨req, by simp [hideTargets]⟩
  | cons t p ih =>
    intro hidden req rest hall hcnt
    have ht := hall t (List.mem_cons_self t p)
    rw [isDirective, Bool.or_eq_true] at ht
    rcases ht with hth | htr
    · obtain ⟨sp, sp2, x, rfl⟩ := isHideStmt_shape t hth
      have hfil : ((Stmt.expr sp (Expr.fuel sp2 x 0) :: p).filter isRequiresStmt) =
          p.filter isRequiresStmt := by
        simp [List.filter_cons, isRequiresStmt]
      rw [hfil] at hcnt
      obtain ⟨req', he⟩ := ih (hidden ++ [x]) req rest
        (fun u hu => hall u (List.mem_cons_of_mem _ hu)) hcnt
      refine ⟨req', ?_⟩
      rw [List.cons_append, go_hide, he,
        show hideTargets (Stmt.expr sp (Expr.fuel sp2 x 0) :: p) = x :: hideTargets p from by
          simp [hideTargets],
        List.append_assoc]
      rfl
    · obtain ⟨sp, sp2, es, rfl⟩ := isRequiresStmt_shape t htr
      have hfil : ((Stmt.expr sp (Expr.call sp2 "requires" es) :: p).filter isRequiresStmt) =
          Stmt.expr sp (Expr.call sp2 "requires" es) :: p.filter isRequiresStmt := by
        simp [List.filter_cons, isRequiresStmt]
      rw [hfil] at hcnt
      cases req with
      | some es0 =>
        exfalso
        simp at hcnt
      | none =>
        have hlen : (p.filter isRequiresStmt).length = 0 := by
          simp only [List.length_cons, Option.isSome_none, Bool.false_eq_true,
            if_false] at hcnt
          omega
        obtain ⟨req', he⟩ := ih hidden (some es) rest
          (fun u hu => hall u (List.mem_cons_of_mem _ hu))
          (by simp [hlen])
        refine ⟨req', ?_⟩
        rw [List.cons_append, go_req_none, he,
          show hideTargets (Stmt.expr sp (Expr.call sp2 "requires" es) :: p) =
            hideTargets p from by simp [hideTargets]]


/-- C3: header extraction fails with the duplicate-requires error,
reported at the second requires statement's location, whenever the
leading directive run contains two requires calls; with exactly one
requires call and any number of hide directives it succeeds, the hide
targets kept in their relative order and the require list equal to the
single call's expression sequence. -/
theorem read_header_requires_claim (h1 h2 : List Stmt) (r : Stmt)
    (hh1 : ∀ s ∈ h1, isHideStmt s = true) (hh2 : ∀ s ∈ h2, isHideStmt s = true)
    (hr : isRequiresStmt r = true) :
    (∀ r2 rest2, isRequiresStmt r2 = true →
      read_header_block (h1 ++ [r] ++ h2 ++ [r2] ++ rest2) =
        Except.error ⟨r2.span, dupRequiresMsg⟩) ∧
    (∀ rest, (rest = [] ∨ ∃ s rest0, rest = s :: rest0 ∧ isDirective s = false) →
      read_header_block (h1 ++ [r] ++ h2 ++ rest) =
        Except.ok (⟨hideTargets h1 ++ hideTargets h2, reqArgs r⟩, rest)) := by
  obtain ⟨sp, sp2, es, rfl⟩ := isRequiresStmt_shape r hr
  constructor
  · intro r2 rest2 hr2
    obtain ⟨tp, tp2, es2, rfl⟩ := isRequiresStmt_shape r2 hr2
    rw [read_header_block]
    simp only [List.append_assoc, List.singleton_append, List.cons_append, List.nil_append]
    rw [go_hides h1 _ [] none hh1, go_req_none,
      go_hides h2 _ _ (some es) hh2, go_req_some]
    rfl
  · intro rest hrest
    rw [read_header_block]
    simp only [List.append_assoc, List.singleton_append, List.cons_append, List.nil_append]
    rw [go_hides h1 _ [] none hh1, go_req_none,
      go_hides h2 _ _ (some es) hh2]
    rcases hrest with rfl | ⟨s, rest0, rfl, hs⟩
    · rw [go_nil]
      simp [reqArgs]
    · rw [go_stop _ _ _ _ hs]
      simp [reqArgs]

theorem read_header_requires_claim_witness :
    read_header_block [exHide1, exReq, exHide2, exReq2] =
      Except.error ⟨24, dupRequiresMsg⟩ ∧
    read_header_block [exHide1, exReq, exHide2, exOther] =
      Except.ok (⟨["h1", "h2"], [Expr.var 23 "a"]⟩, [exOther]) := by
  have h := read_header_requires_claim [exHide1] [exHide2] exReq
    (by intro s hs; rw [List.mem_singleton] at hs; subst hs; rfl)
    (by intro s hs; rw [List.mem_singleton] at hs; subst hs; rfl)
    (by rfl)
  constructor
  · have h1 := h.1 exReq2 [] (by rfl)
    simpa [exHide1, exHide2, exReq, exReq2] using h1
  · have h2 := h.2 [exOther] (Or.inr ⟨exOther, [], rfl, by rfl⟩)
    simpa [exHide1, exHide2, exReq, exOther, hideTargets, reqArgs] using h2

/-- C5: extraction consumes exactly the maximal leading run of
directive statements: with `p` all directives (at most one requires)
and `s` non-directive, extraction succeeds and the residual body is
`s :: rest` unchanged — in particular any directive-shaped statement
occurring after `s` stays in the residual, in its original position. -/
theorem read_header_boundary_claim (p : List Stmt) (s : Stmt) (rest : List Stmt)
    (hp : ∀ t ∈ p, isDirective t = true)
    (hcount : (p.filter isRequiresStmt).length ≤ 1)
    (hs : isDirective s = false) :
    ∃ header, read_header_block (p ++ s :: rest) = Except.ok (header, s :: rest) := by
  obtain ⟨req', he⟩ := go_directives p [] none (s :: rest) hp (by simpa using hcount)
  refine ⟨⟨hideTargets p, req'.getD []⟩, ?_⟩
  rw [read_header_block, he, go_stop _ _ _ _ hs]
  simp

theorem read_header_boundary_claim_witness :
    ∃ header, read_header_block ([exHide1, exReq] ++ exOther :: [exHide2]) =
      Except.ok (header, exOther :: [exHide2]) :=
  read_header_boundary_claim [exHide1, exReq] exOther [exHide2]
    (by decide) (by decide) (by decide)

/-- C6: `check_item_fn` rejects an `Exec` or `Proof` function with a
declared return type by returning an explicit error value (carrying the
signature's location and a message) rather than an uncatchable fault,
and the mode/return-type check accepts `Spec` functions with or without
a return type (translation succeeding whenever header extraction yields
an empty require list). -/
theorem check_item_fn_mode_ret_claim (vir : Krate) (sigSpan : SpanId)
    (name : Ident) (mode : Mode) (fuelv : Nat) (ret : Option Typ)
    (params : List Param) (body : Expr) :
    ((mode = .Exec ∨ mode = .Proof) → ∀ t, ret = some t →
      check_item_fn vir sigSpan name mode fuelv ret params body =
        Except.error (unsupportedErr sigSpan "non-spec function return values")) ∧
    (∀ header rest, read_header body = Except.ok (header, rest) →
      header.require = [] →
      check_item_fn vir sigSpan name .Spec fuelv ret params body =
        Except.ok { vir with functions := vir.functions ++
          [⟨sigSpan, { name, mode := .Spec, fuel := fuelv, params, ret,
                       require := header.require, hidden := header.hidden,
                       body := some rest }⟩] }) := by
  constructor
  · intro hm t hret
    subst hret
    rcases hm with rfl | rfl <;>
      simp [check_item_fn, Bind.bind, Except.bind]
  · intro header rest hread hreq
    simp [check_item_fn, Bind.bind, Except.bind, hread, hreq]

theorem check_item_fn_mode_ret_claim_witness :
    check_item_fn ⟨[], []⟩ 50 "e1" .Exec 1 (some "int") [] (.block 51 [] none) =
      Except.error (unsupportedErr 50 "non-spec function return values") ∧
    check_item_fn ⟨[], []⟩ 50 "s1" .Spec 1 (some "int") [] (.block 51 [] none) =
      Except.ok ⟨[⟨50, { name := "s1", mode := .Spec, fuel := 1, params := [],
                         ret := some "int", require := [], hidden := [],
                         body := some (.block 51 [] none) }⟩], []⟩ := by
  constructor
  · exact (check_item_fn_mode_ret_claim ⟨[], []⟩ 50 "e1" .Exec 1 (some "int") []
      (.block 51 [] none)).1 (Or.inl rfl) "int" rfl
  · have h := (check_item_fn_mode_ret_claim ⟨[], []⟩ 50 "s1" .Spec 1 (some "int") []
      (.block 51 [] none)).2 ⟨[], []⟩ (.block 51 [] none)
      (by simp [read_header, read_header_block, read_header_go, Bind.bind, Except.bind])
      rfl
    simpa using h

/-- C9: a Spec-mode function whose extracted header carries a non-empty
require list is rejected by `check_item_fn` with an error located at
the function signature's span stating that spec functions cannot have
requires/ensures. -/
theorem check_item_fn_spec_requires_claim (vir : Krate) (sigSpan : SpanId)
    (name : Ident) (fuelv : Nat) (ret : Option Typ) (params : List Param)
    (body : Expr) (header : Header) (rest : Expr)
    (hread : read_header body = Except.ok (header, rest))
    (hreq : header.require.length > 0) :
    check_item_fn vir sigSpan name .Spec fuelv ret params body =
      Except.error ⟨sigSpan, "spec functions cannot have requires/ensures"⟩ := by
  simp [check_item_fn, Bind.bind, Except.bind, hread, hreq]

theorem check_item_fn_spec_requires_claim_witness :
    check_item_fn ⟨[], []⟩ 60 "s2" .Spec 1 none [] (.block 61 [exReq] none) =
      Except.error ⟨60, "spec functions cannot have requires/ensures"⟩ :=
  check_item_fn_spec_requires_claim ⟨[], []⟩ 60 "s2" 1 none []
    (.block 61 [exReq] none) ⟨[], [Expr.var 23 "a"]⟩ (.block 61 [] none)
    (by simp [read_header, read_header_block, read_header_go, exReq,
      Bind.bind, Except.bind])
    (by simp)

/-- C10: every `Function` assembled by `check_foreign_item_fn` has no
body, an empty require list and an empty hidden list, and such a
body-less function passes `check_no_recursion` against any `func_map`,
hence at any position in the krate's sequence. -/
theorem check_foreign_item_fn_claim (vir : Krate) (span : SpanId) (name : Ident)
    (mode : Mode) (fuelv : Nat) (ret : Option Typ) (params : List Param) :
    ∃ func : Function,
      check_foreign_item_fn vir span name mode fuelv ret params =
        Except.ok { vir with functions := vir.functions ++ [func] } ∧
      func.x.body = none ∧ func.x.require = [] ∧ func.x.hidden = [] ∧
      (∀ m : List (Ident × Function), check_no_recursion m func = Except.ok ()) := by
  refine ⟨⟨span, { name, fuel := fuelv, mode, params, ret,
                   require := [], hidden := [], body := none }⟩,
    rfl, rfl, rfl, rfl, ?_⟩
  intro m
  simp [check_no_recursion]

/-- C7: `get_chosen_triggers` returns a copy of the entire log in
append order and does not modify the context; two consecutive calls
agree, and after appending any sequence of entries the returned copy is
the previous log extended by exactly those entries, in order, without
deduplication. -/
theorem get_chosen_triggers_claim (ctx : Ctx) :
    (ctx.get_chosen_triggers.2 = ctx) ∧
    (ctx.get_chosen_triggers.1 = ctx.chosen_triggers) ∧
    (ctx.get_chosen_triggers.2.get_chosen_triggers.1 = ctx.get_chosen_triggers.1) ∧
    (∀ es : List (SpanId × List (List String)),
      ((es.foldl Ctx.append_chosen_trigger ctx).get_chosen_triggers).1 =
        ctx.chosen_triggers ++ es) := by
  refine ⟨rfl, rfl, rfl, ?_⟩
  intro es
  induction es generalizing ctx with
  | nil => simp [Ctx.get_chosen_triggers]
  | cons e rest ih =>
    rw [List.foldl_cons, ih (ctx.append_chosen_trigger e)]
    simp [Ctx.append_chosen_trigger]

/-- C8: constructing a two-field record value with its field
initializers written in either source order yields identical read-back
values for every field. -/
theorem record_field_order_claim (fA fB : Ident) (a b : Value) (hne : fA ≠ fB) :
    ∀ f, readField (mkRecord [(fA, a), (fB, b)]) f =
      readField (mkRecord [(fB, b), (fA, a)]) f := by
  intro f
  by_cases hA : fA = f <;> by_cases hB : fB = f
  · exact absurd (hA.trans hB.symm) hne
  · simp [readField, mkRecord, List.find?, hA, hB]
  · simp [readField, mkRecord, List.find?, hA, hB]
  · simp [readField, mkRecord, List.find?, hA, hB]

theorem record_field_order_claim_witness :
    readField (mkRecord [("four_doors", Value.b true), ("passengers", Value.i 7)])
        "passengers" =
      readField (mkRecord [("passengers", Value.i 7), ("four_doors", Value.b true)])
        "passengers" :=
  record_field_order_claim "four_doors" "passengers" (Value.b true) (Value.i 7)
    (by decide) "passengers"

end Verus
